import Mathlib

/-!
Shallow embedding of `src/extra/scanner.py` and `src/extra/missing.py`
(repository Amne-Dev/waguri-read), together with a spec-modelled
ContainmentDetector (§4.5 of the design document), and theorems settling
the behavioural claims about them.

Modelling conventions:
* Python `int` is modelled as `Nat` (all quantities involved — widths,
  heights, pixel bytes, hashes, panel numbers — are non-negative).
* File-system paths and (lower-cased) file suffixes are opaque keys: they
  are modelled as `Nat` identifiers, ordered as the directory listing
  order used by `sorted(...)`.
* Pillow decoding is external I/O: a directory entry carries the outcome
  of decoding as an `Option` (the decoded width, height and the list of
  N² luminance samples produced by the grayscale resize); `none` models
  the `OSError` path.
* Python's `sorted` is a stable sort by key; it is modelled by the stable
  `List.insertionSort` on the corresponding key order, which produces the
  same (unique) stably-sorted permutation.
* The float comparisons `width_diff <= max_width * 0.1` and
  `value >= sum(pixels)/len(pixels)` are modelled in exact arithmetic by
  cross-multiplying (`width_diff * 10 <= max_width`,
  `value * len >= sum`); for the integer operands the program feeds them,
  the exact comparison and the IEEE-double comparison agree.
-/

namespace WaguriRead

/-! ### scanner.py: data model -/

/-- `PanelInfo` from scanner.py; `path` is the opaque path key. -/
structure PanelInfo where
  path : Nat
  width : Nat
  height : Nat
  hash_value : Nat
deriving DecidableEq

/-- `SimilarPair` from scanner.py. -/
structure SimilarPair where
  left : PanelInfo
  right : PanelInfo
  distance : Nat
deriving DecidableEq

/-! ### scanner.py: hashing -/

/-- Fuel-indexed helper so that the binary digit count is structurally
recursive (and hence kernel-evaluable). -/
def bitCountFuel : Nat → Nat → Nat
  | 0, _ => 0
  | fuel + 1, n => if n = 0 then 0 else n % 2 + bitCountFuel fuel (n / 2)

/-- Python's `int.bit_count`: the number of 1 bits (popcount). -/
def bit_count (n : Nat) : Nat := bitCountFuel n n

/-- `hamming_distance` from scanner.py: `(first ^ second).bit_count()`. -/
def hamming_distance (first second : Nat) : Nat := bit_count (first ^^^ second)

/-- `compute_average_hash` from scanner.py, acting on the flat row-major
list of N² grayscale samples that `image.convert("L").resize(...)`
produces (decode and resample are external Pillow calls).
`average = sum(pixels) / len(pixels)` is a float; `value >= average`
is modelled exactly as `value * len(pixels) >= sum(pixels)`.
`(result << 1) | bit` with `bit ∈ {0,1}` equals `2 * result + bit`. -/
def compute_average_hash (pixels : List Nat) : Nat :=
  let avg_num := pixels.sum
  let avg_den := pixels.length
  pixels.foldl (fun result value => 2 * result + (if avg_num ≤ value * avg_den then 1 else 0)) 0

/-! ### scanner.py: dimension tolerance and the pair search -/

/-- `dimensions_close` from scanner.py.  `width_diff = abs(a.width - b.width)`
is `max - min` on `Nat`; `max_width = max(a.width, b.width) or 1` maps a
zero maximum to 1; the float comparison
`width_diff <= max_width * DIMENSION_RATIO_TOLERANCE` (tolerance 0.1) is
modelled exactly as `width_diff * 10 <= max_width`. -/
def dimensions_close (a b : PanelInfo) : Bool :=
  let width_diff := max a.width b.width - min a.width b.width
  let height_diff := max a.height b.height - min a.height b.height
  let max_width := if max a.width b.width = 0 then 1 else max a.width b.width
  let max_height := if max a.height b.height = 0 then 1 else max a.height b.height
  decide (width_diff * 10 ≤ max_width) && decide (height_diff * 10 ≤ max_height)

/-- The sort key order of `sorted(records, key=lambda item: item.width * item.height)`. -/
def byArea (a b : PanelInfo) : Prop := a.width * a.height ≤ b.width * b.height

instance : DecidableRel byArea := fun a b => Nat.decLe (a.width * a.height) (b.width * b.height)

instance : IsTotal PanelInfo byArea := ⟨fun a b => Nat.le_total (a.width * a.height) (b.width * b.height)⟩

instance : IsTrans PanelInfo byArea := ⟨fun _ _ _ => Nat.le_trans⟩

/-- `sorted(records, key=lambda item: item.width * item.height)` (stable). -/
def sortRecords (records : List PanelInfo) : List PanelInfo :=
  List.insertionSort byArea records

/-- Body of the inner loop of `find_similar_pairs`, for a fixed `left`. -/
def similar_check (threshold : Nat) (left right : PanelInfo) : Option SimilarPair :=
  if dimensions_close left right then
    let distance := hamming_distance left.hash_value right.hash_value
    if distance ≤ threshold then some ⟨left, right, distance⟩ else none
  else none

/-- The two nested loops of `find_similar_pairs`:
`for idx in range(count): left = sorted_records[idx]; for right in sorted_records[idx+1:]: ...`
iterates the tails of the sorted list. -/
def find_similar_pairs_loop (threshold : Nat) : List PanelInfo → List SimilarPair
  | [] => []
  | left :: rest =>
      rest.filterMap (similar_check threshold left) ++ find_similar_pairs_loop threshold rest

/-- `find_similar_pairs` from scanner.py. -/
def find_similar_pairs (records : List PanelInfo) (threshold : Nat) : List SimilarPair :=
  find_similar_pairs_loop threshold (sortRecords records)

/-! ### scanner.py: loader and repository scan -/

/-- One entry of `chapter_path.iterdir()`.  `path` is the opaque path key
(ordered as `sorted(...)` orders the real paths), `suffix` the opaque key
of the lower-cased file extension, and `decoded` the outcome of
`Image.open(entry)` / `convert("RGB")`: `some (width, height, samples)`
on success (with `samples` the grayscale grid later hashed), `none` when
decoding raises `OSError`. -/
structure DirEntry where
  path : Nat
  is_file : Bool
  suffix : Nat
  decoded : Option (Nat × Nat × List Nat)
deriving DecidableEq

/-- The path order of `sorted(chapter_path.iterdir())`. -/
def byPath (a b : DirEntry) : Prop := a.path ≤ b.path

instance : DecidableRel byPath := fun a b => Nat.decLe a.path b.path

/-- Body of the loop of `gather_panels`, for one directory entry: skip
non-files and foreign suffixes, skip entries whose decode fails
(`except OSError: continue`), and record a `PanelInfo` for the rest. -/
def gather_entry (extensions : List Nat) (entry : DirEntry) : Option PanelInfo :=
  if entry.is_file && extensions.contains entry.suffix then
    match entry.decoded with
    | some (width, height, samples) =>
        some ⟨entry.path, width, height, compute_average_hash samples⟩
    | none => none
  else none

/-- `gather_panels` from scanner.py: iterate the sorted directory entries
and collect the records of the entries that survive `gather_entry`. -/
def gather_panels (entries : List DirEntry) (extensions : List Nat) : List PanelInfo :=
  (List.insertionSort byPath entries).filterMap (gather_entry extensions)

/-- One chapter directory: its name key (ordered as `path.name.lower()`)
and its directory entries. -/
structure Chapter where
  name : Nat
  entries : List DirEntry
deriving DecidableEq

/-- The order of `sorted(..., key=lambda path: path.name.lower())`. -/
def byName (a b : Chapter) : Prop := a.name ≤ b.name

instance : DecidableRel byName := fun a b => Nat.decLe a.name b.name

/-- `scan_repository` from scanner.py, on the list of chapter directories
found under the root (when the root has no subdirectories the caller's
list is `[root]`); the `progress_cb` side effect is dropped. -/
def scan_repository (chapters : List Chapter) (extensions : List Nat) (threshold : Nat) :
    List SimilarPair :=
  (List.insertionSort byName chapters).flatMap fun chapter =>
    let records := gather_panels chapter.entries extensions
    if records.isEmpty then [] else find_similar_pairs records threshold

/-! ### missing.py -/

/-- `find_missing` from missing.py: walk adjacent elements of the sorted
list of panel numbers and collect `range(previous + 1, current)` for each
gap; lists with fewer than two elements yield nothing.
`range(previous + 1, current)` is `List.range' (previous + 1) (current - previous - 1)`. -/
def find_missing : List Nat → List Nat
  | [] => []
  | [_] => []
  | previous :: current :: rest =>
      (if current - previous > 1 then List.range' (previous + 1) (current - previous - 1) else [])
        ++ find_missing (current :: rest)

/-! ### ContainmentDetector (spec §4.5; not present in src/) -/

/-- One decoded image with its raw RGB buffer. `identity` is the opaque
reporting key; `channels` is fixed at 3, so the stride is `width * 3` and
`pixels` is the row-major byte buffer. -/
structure ImageRec where
  identity : Nat
  width : Nat
  height : Nat
  pixels : List Nat
deriving DecidableEq

/-- `stride = width × channel count` (channels fixed at 3). -/
def ImageRec.stride (img : ImageRec) : Nat := img.width * 3

/-- Byte `c` of row `r` of the buffer. -/
def byteAt (img : ImageRec) (r c : Nat) : Nat := img.pixels.getD (r * img.stride + c) 0

/-- Candidate row `r` matches the container's row `y0 + r` at byte offset `p`. -/
def rowSliceMatch (big small : ImageRec) (y0 p r : Nat) : Bool :=
  (List.range small.stride).all fun c => byteAt big (y0 + r) (p + c) == byteAt small r c

/-- Modelled from the spec: the 2D exact pattern search of §4.5
(ContainmentDetector), a component absent from src/.  For each vertical
offset `y0` in `[0, bh - sh]`, each occurrence of the candidate's first
row inside the container's row slice is considered; positions whose byte
offset is not a multiple of the channel count (3) are rejected, and every
remaining candidate row must match the corresponding byte range of the
container at the same horizontal offset. -/
def containment_search (big small : ImageRec) : Bool :=
  (List.range (big.height - small.height + 1)).any fun y0 =>
    (List.range (big.stride - small.stride + 1)).any fun p =>
      rowSliceMatch big small y0 p 0 && p % 3 == 0 &&
        (List.range small.height).all fun r => rowSliceMatch big small y0 p r

/-- Modelled from the spec: the ContainmentDetector of §4.5 (absent from
src/), guarded by `candidate.width ≤ container.width`,
`candidate.height ≤ container.height` and the pair not being a
full-dimension match; on success it reports the directional
ContainmentMatch `(child identity, parent identity)`. -/
def containment_detector (container candidate : ImageRec) : Option (Nat × Nat) :=
  if candidate.width ≤ container.width ∧ candidate.height ≤ container.height
      ∧ ¬(candidate.width = container.width ∧ candidate.height = container.height) then
    if containment_search container candidate then
      some (candidate.identity, container.identity)
    else none
  else none

/-- `small` equals the axis-aligned crop of `big` at pixel offset `(x0, y0)`. -/
def is_crop (big small : ImageRec) (x0 y0 : Nat) : Prop :=
  x0 + small.width ≤ big.width ∧ y0 + small.height ≤ big.height ∧
    ∀ r < small.height, ∀ c < small.stride,
      byteAt small r c = byteAt big (y0 + r) (3 * x0 + c)

instance (big small : ImageRec) (x0 y0 : Nat) : Decidable (is_crop big small x0 y0) := by
  unfold is_crop
  infer_instance

/-- The aligned sub-rectangle of `big` at pixel offset `(x0, y0)` equals
`small`'s whole buffer. -/
def aligned_match (big small : ImageRec) (x0 y0 : Nat) : Prop :=
  ∀ r < small.height, ∀ c < small.stride,
    byteAt big (y0 + r) (3 * x0 + c) = byteAt small r c

instance (big small : ImageRec) (x0 y0 : Nat) : Decidable (aligned_match big small x0 y0) := by
  unfold aligned_match
  infer_instance

/-! ### Spec-side pair enumeration (for the claim about the pair search) -/

/-- Every unordered pair of list positions, each exactly once: the pair of
`x` with each later element, then the pairs of the tail. -/
def allPairs : List PanelInfo → List (PanelInfo × PanelInfo)
  | [] => []
  | x :: xs => (xs.map fun y => (x, y)) ++ allPairs xs

/-- The reporting rule stated by the spec: a considered pair is reported
exactly when the popcount of the XOR of the two fingerprints is at most
the threshold (and the pair is dimension-comparable at all). -/
def reportRule (threshold : Nat) (q : PanelInfo × PanelInfo) : Option SimilarPair :=
  if dimensions_close q.1 q.2 ∧ bit_count (q.1.hash_value ^^^ q.2.hash_value) ≤ threshold then
    some ⟨q.1, q.2, bit_count (q.1.hash_value ^^^ q.2.hash_value)⟩
  else none

/-! ### Concrete panels, entries and images used by witnesses -/

/-- A 100×100 panel with fingerprint 0. -/
def r100 : PanelInfo := ⟨1, 100, 100, 0⟩

/-- A 105×105 panel with fingerprint 0 (within the 10% tolerance of `r100`). -/
def r105 : PanelInfo := ⟨2, 105, 105, 0⟩

/-! ### Helper lemmas on the pair search -/

/-- Anatomy of a successful `similar_check`. -/
theorem similar_check_some {threshold : Nat} {a b : PanelInfo} {p : SimilarPair}
    (h : similar_check threshold a b = some p) :
    dimensions_close a b = true ∧ p.left = a ∧ p.right = b ∧
      p.distance = hamming_distance a.hash_value b.hash_value ∧ p.distance ≤ threshold := by
  by_cases hc : dimensions_close a b
  · simp only [similar_check, hc, if_true] at h
    by_cases hd : hamming_distance a.hash_value b.hash_value ≤ threshold
    · simp only [hd, if_true, Option.some.injEq] at h
      subst h
      exact ⟨hc, rfl, rfl, rfl, hd⟩
    · simp [hd] at h
  · simp [similar_check, hc] at h

/-- A reported pair's members both come from the scanned list, the left
one from strictly before the right one. -/
theorem find_similar_pairs_loop_mem {threshold : Nat} {p : SimilarPair} :
    ∀ l : List PanelInfo, p ∈ find_similar_pairs_loop threshold l →
      p.left ∈ l ∧ p.right ∈ l := by
  intro l
  induction l with
  | nil => intro h; simp [find_similar_pairs_loop] at h
  | cons x rest ih =>
    intro h
    rcases List.mem_append.1 h with h1 | h2
    · rcases List.mem_filterMap.1 h1 with ⟨b, hb, hsc⟩
      obtain ⟨-, hl, hr, -, -⟩ := similar_check_some hsc
      exact ⟨hl ▸ List.mem_cons_self x rest, hr ▸ List.mem_cons_of_mem x hb⟩
    · obtain ⟨hl, hr⟩ := ih h2
      exact ⟨List.mem_cons_of_mem x hl, List.mem_cons_of_mem x hr⟩

/-- Membership in `find_similar_pairs` forces membership in the input. -/
theorem find_similar_pairs_mem {records : List PanelInfo} {threshold : Nat} {p : SimilarPair}
    (h : p ∈ find_similar_pairs records threshold) :
    p.left ∈ records ∧ p.right ∈ records := by
  obtain ⟨hl, hr⟩ := find_similar_pairs_loop_mem (sortRecords records) h
  have hperm := List.perm_insertionSort byArea records
  exact ⟨hperm.mem_iff.1 hl, hperm.mem_iff.1 hr⟩

/-- Any pair a loop run reports satisfies the dimension tolerance. -/
theorem find_similar_pairs_loop_close {threshold : Nat} {p : SimilarPair} :
    ∀ l : List PanelInfo, p ∈ find_similar_pairs_loop threshold l →
      dimensions_close p.left p.right = true := by
  intro l
  induction l with
  | nil => intro h; simp [find_similar_pairs_loop] at h
  | cons x rest ih =>
    intro h
    rcases List.mem_append.1 h with h1 | h2
    · rcases List.mem_filterMap.1 h1 with ⟨b, _, hsc⟩
      obtain ⟨hc, hl, hr, -, -⟩ := similar_check_some hsc
      rw [hl, hr]
      exact hc
    · exact ih h2

/-! ### C1 -/

/-- C1, counterexample: the records `r100` (100×100) and `r105` (105×105)
have different dimensions, yet `find_similar_pairs` reports them as a
perceptual match at threshold 0 — the detector buckets by a 10% dimension
tolerance, not by exact `(width, height)`. -/
theorem find_similar_pairs_unequal_dims_reported :
    find_similar_pairs [r100, r105] 0 = [⟨r100, r105, 0⟩] ∧
      r100.width ≠ r105.width ∧ r100.height ≠ r105.height := by
  decide

/-- C1, amended: `find_similar_pairs` compares two records only when
their widths differ by at most 10% of the larger width and their heights
differ by at most 10% of the larger height (`dimensions_close`); a pair
whose dimensions differ beyond that tolerance is never reported,
regardless of fingerprints or threshold. -/
theorem find_similar_pairs_requires_close_dims (records : List PanelInfo) (threshold : Nat)
    (p : SimilarPair) (h : p ∈ find_similar_pairs records threshold) :
    dimensions_close p.left p.right = true :=
  find_similar_pairs_loop_close (sortRecords records) h

/-- C1 amended, witness at a concrete input. -/
theorem find_similar_pairs_requires_close_dims_witness :
    dimensions_close (SimilarPair.mk r100 r105 0).left (SimilarPair.mk r100 r105 0).right = true :=
  find_similar_pairs_requires_close_dims [r100, r105] 0 ⟨r100, r105, 0⟩ (by decide)

/-! ### C6 -/

/-- C6: the Hamming distance on fingerprints is symmetric, and the
distance of a fingerprint to itself is 0. -/
theorem hamming_distance_symm_and_self_zero :
    (∀ a b : Nat, hamming_distance a b = hamming_distance b a) ∧
      (∀ a : Nat, hamming_distance a a = 0) := by
  constructor
  · intro a b
    unfold hamming_distance
    rw [Nat.xor_comm]
  · intro a
    unfold hamming_distance
    rw [Nat.xor_self]
    rfl

/-! ### C4 -/

/-- Raising the threshold preserves a successful `similar_check`. -/
theorem similar_check_mono {T1 T2 : Nat} (hT : T1 ≤ T2) {a b : PanelInfo} {p : SimilarPair}
    (h : similar_check T1 a b = some p) : similar_check T2 a b = some p := by
  obtain ⟨hc, -, -, -, -⟩ := similar_check_some h
  simp only [similar_check, hc, if_true] at h ⊢
  by_cases hd : hamming_distance a.hash_value b.hash_value ≤ T1
  · simp only [hd, if_true] at h
    simp only [le_trans hd hT, if_true]
    exact h
  · simp [hd] at h

/-- Threshold monotonicity of the loop. -/
theorem find_similar_pairs_loop_mono {T1 T2 : Nat} (hT : T1 ≤ T2) {p : SimilarPair} :
    ∀ l : List PanelInfo, p ∈ find_similar_pairs_loop T1 l → p ∈ find_similar_pairs_loop T2 l := by
  intro l
  induction l with
  | nil => intro h; simp [find_similar_pairs_loop] at h
  | cons x rest ih =>
    intro h
    rcases List.mem_append.1 h with h1 | h2
    · rcases List.mem_filterMap.1 h1 with ⟨b, hb, hsc⟩
      exact List.mem_append.2 (Or.inl (List.mem_filterMap.2 ⟨b, hb, similar_check_mono hT hsc⟩))
    · exact List.mem_append.2 (Or.inr (ih h2))

/-- C4: for a fixed input, every pair reported at threshold `T1` is also
reported at any threshold `T2 ≥ T1` — the match set is monotone in the
threshold. -/
theorem find_similar_pairs_monotone (records : List PanelInfo) (T1 T2 : Nat) (hT : T1 ≤ T2)
    (p : SimilarPair) (h : p ∈ find_similar_pairs records T1) :
    p ∈ find_similar_pairs records T2 :=
  find_similar_pairs_loop_mono hT (sortRecords records) h

/-- C4, witness at a concrete input. -/
theorem find_similar_pairs_monotone_witness :
    SimilarPair.mk r100 r105 0 ∈ find_similar_pairs [r100, r105] 7 :=
  find_similar_pairs_monotone [r100, r105] 0 7 (by decide) ⟨r100, r105, 0⟩ (by decide)

/-! ### C9 -/

/-- On an area-sorted list, every reported pair has its left member's
area at most its right member's area. -/
theorem find_similar_pairs_loop_area {threshold : Nat} {p : SimilarPair} :
    ∀ l : List PanelInfo, List.Sorted byArea l → p ∈ find_similar_pairs_loop threshold l →
      byArea p.left p.right := by
  intro l
  induction l with
  | nil => intro _ h; simp [find_similar_pairs_loop] at h
  | cons x rest ih =>
    intro hs h
    rcases List.mem_append.1 h with h1 | h2
    · rcases List.mem_filterMap.1 h1 with ⟨b, hb, hsc⟩
      obtain ⟨-, hl, hr, -, -⟩ := similar_check_some hsc
      rw [hl, hr]
      exact List.rel_of_sorted_cons hs b hb
    · exact ih hs.of_cons h2

/-- C9: in every pair produced by `find_similar_pairs`, the left member's
area (width × height) is at most the right member's area, because the
candidates are scanned in ascending-area order. -/
theorem find_similar_pairs_left_area_le (records : List PanelInfo) (threshold : Nat)
    (p : SimilarPair) (h : p ∈ find_similar_pairs records threshold) :
    p.left.width * p.left.height ≤ p.right.width * p.right.height :=
  find_similar_pairs_loop_area (sortRecords records)
    (List.sorted_insertionSort byArea records) h

/-- C9, witness at a concrete input (the input list is deliberately given
in descending-area order). -/
theorem find_similar_pairs_left_area_le_witness :
    (SimilarPair.mk r100 r105 0).left.width * (SimilarPair.mk r100 r105 0).left.height ≤
      (SimilarPair.mk r100 r105 0).right.width * (SimilarPair.mk r100 r105 0).right.height :=
  find_similar_pairs_left_area_le [r105, r100] 0 ⟨r100, r105, 0⟩ (by decide)

/-! ### C2 -/

/-- `similar_check` is exactly the spec's reporting rule. -/
theorem similar_check_eq_reportRule (threshold : Nat) (a b : PanelInfo) :
    similar_check threshold a b = reportRule threshold (a, b) := by
  by_cases hc : dimensions_close a b
  · by_cases hd : hamming_distance a.hash_value b.hash_value ≤ threshold
    · simp [similar_check, reportRule, hc, hd, hamming_distance]
    · simp [similar_check, reportRule, hc, hd, hamming_distance]
  · simp [similar_check, reportRule, hc]

/-- The nested loops are the filter of the one-shot pair enumeration. -/
theorem find_similar_pairs_loop_eq_allPairs (threshold : Nat) :
    ∀ l : List PanelInfo,
      find_similar_pairs_loop threshold l = (allPairs l).filterMap (reportRule threshold) := by
  intro l
  induction l with
  | nil => rfl
  | cons x rest ih =>
    simp only [find_similar_pairs_loop, allPairs, List.filterMap_append, ih,
      List.filterMap_map]
    congr 1
    apply List.filterMap_congr
    intro b _
    exact similar_check_eq_reportRule threshold x b

/-- Both components of an enumerated pair come from the list. -/
theorem mem_allPairs {q : PanelInfo × PanelInfo} :
    ∀ l : List PanelInfo, q ∈ allPairs l → q.1 ∈ l ∧ q.2 ∈ l := by
  intro l
  induction l with
  | nil => intro h; simp [allPairs] at h
  | cons x rest ih =>
    intro h
    rcases List.mem_append.1 h with h1 | h2
    · rcases List.mem_map.1 h1 with ⟨b, hb, hq⟩
      subst hq
      exact ⟨List.mem_cons_self x rest, List.mem_cons_of_mem x hb⟩
    · obtain ⟨h1, h2⟩ := ih h2
      exact ⟨List.mem_cons_of_mem x h1, List.mem_cons_of_mem x h2⟩

/-- Counting a pair among the pairs `(x, ·)`. -/
theorem count_pair_map (x : PanelInfo) (u v : PanelInfo) :
    ∀ xs : List PanelInfo,
      (xs.map fun y => (x, y)).count (u, v) = if u = x then xs.count v else 0 := by
  intro xs
  induction xs with
  | nil => simp
  | cons y ys ih =>
    by_cases hux : u = x
    · subst hux
      by_cases hyv : y = v
      · subst hyv
        simp [List.count_cons, ih]
      · simp [List.count_cons, ih, hyv, Prod.ext_iff]
    · have hxy : ¬ ((x, y) = (u, v)) := fun h => hux ((Prod.ext_iff.1 h).1).symm
      simp [List.count_cons, ih, hux, hxy]

/-- On a duplicate-free list, each unordered pair of distinct members is
enumerated exactly once. -/
theorem allPairs_count_once {a b : PanelInfo} :
    ∀ l : List PanelInfo, l.Nodup → a ∈ l → b ∈ l → a ≠ b →
      (allPairs l).count (a, b) + (allPairs l).count (b, a) = 1 := by
  intro l
  induction l with
  | nil => intro _ ha; simp at ha
  | cons x rest ih =>
    intro hnd ha hb hab
    have hx : x ∉ rest := (List.nodup_cons.1 hnd).1
    have hndr : rest.Nodup := (List.nodup_cons.1 hnd).2
    simp only [allPairs, List.count_append, count_pair_map]
    rcases List.mem_cons.1 ha with hax | har
    · subst hax
      have hbr : b ∈ rest := (List.mem_cons.1 hb).resolve_left (fun h => hab h.symm)
      have hnab : ¬ b = a := fun h => hab h.symm
      rw [if_pos rfl, if_neg hnab]
      rw [List.count_eq_one_of_mem hndr hbr]
      have c1 : (allPairs rest).count (a, b) = 0 :=
        List.count_eq_zero.2 (fun h => hx (mem_allPairs rest h).1)
      have c2 : (allPairs rest).count (b, a) = 0 :=
        List.count_eq_zero.2 (fun h => hx (mem_allPairs rest h).2)
      omega
    · rcases List.mem_cons.1 hb with hbx | hbr
      · subst hbx
        rw [if_neg hab, if_pos rfl]
        rw [List.count_eq_one_of_mem hndr har]
        have c1 : (allPairs rest).count (a, b) = 0 :=
          List.count_eq_zero.2 (fun h => hx (mem_allPairs rest h).2)
        have c2 : (allPairs rest).count (b, a) = 0 :=
          List.count_eq_zero.2 (fun h => hx (mem_allPairs rest h).1)
        omega
      · have hna : ¬ a = x := fun h => hx (h ▸ har)
        have hnb : ¬ b = x := fun h => hx (h ▸ hbr)
        rw [if_neg hna, if_neg hnb]
        have := ih hndr har hbr hab
        omega

/-- The enumeration has exactly `k·(k-1)/2` pairs. -/
theorem allPairs_length : ∀ l : List PanelInfo,
    (allPairs l).length = l.length * (l.length - 1) / 2 := by
  have key : ∀ l : List PanelInfo, (allPairs l).length = l.length.choose 2 := by
    intro l
    induction l with
    | nil => rfl
    | cons x rest ih =>
      simp only [allPairs, List.length_append, List.length_map, ih, List.length_cons]
      rw [Nat.choose_succ_succ, Nat.choose_one_right]
  intro l
  rw [key, Nat.choose_two_right]

/-- C2: `find_similar_pairs` equals the filter, by the rule
«report iff popcount(fingerprint XOR fingerprint) ≤ threshold», of a
one-shot enumeration of the unordered pairs of comparable records; that
enumeration visits each unordered pair of a duplicate-free list exactly
once, `k·(k-1)/2` pairs in all. -/
theorem find_similar_pairs_considers_each_pair_once (records : List PanelInfo) (threshold : Nat) :
    find_similar_pairs records threshold
        = (allPairs (sortRecords records)).filterMap (reportRule threshold)
      ∧ (∀ l : List PanelInfo, (allPairs l).length = l.length * (l.length - 1) / 2)
      ∧ (∀ l : List PanelInfo, l.Nodup → ∀ a b : PanelInfo, a ∈ l → b ∈ l → a ≠ b →
          (allPairs l).count (a, b) + (allPairs l).count (b, a) = 1) :=
  ⟨find_similar_pairs_loop_eq_allPairs threshold (sortRecords records),
    allPairs_length,
    fun l hnd a b ha hb hab => allPairs_count_once l hnd ha hb hab⟩

/-- C2, witness at a concrete input. -/
theorem find_similar_pairs_considers_each_pair_once_witness :
    find_similar_pairs [r100, r105] 0
        = (allPairs (sortRecords [r100, r105])).filterMap (reportRule 0)
      ∧ (allPairs [r100, r105]).count (r100, r105) + (allPairs [r100, r105]).count (r105, r100)
          = 1 :=
  ⟨(find_similar_pairs_considers_each_pair_once [r100, r105] 0).1,
    (find_similar_pairs_considers_each_pair_once [r100, r105] 0).2.2 [r100, r105]
      (by decide) r100 r105 (by decide) (by decide) (by decide)⟩

/-! ### C3 -/

/-- Unrolling the accumulator of the bit-packing fold: the result is the
accumulator shifted past the remaining bits plus the MSB-first value of
those bits. -/
theorem foldl_bits (bit : Nat → Nat) :
    ∀ (l : List Nat) (acc : Nat),
      l.foldl (fun result value => 2 * result + bit value) acc
        = acc * 2 ^ l.length
            + ∑ i ∈ Finset.range l.length, bit (l.getD i 0) * 2 ^ (l.length - 1 - i) := by
  intro l
  induction l with
  | nil => intro acc; simp
  | cons v t ih =>
    intro acc
    rw [List.foldl_cons, ih]
    rw [List.length_cons, Finset.sum_range_succ']
    have hgd : ∀ i : Nat, (v :: t).getD (i + 1) 0 = t.getD i 0 := fun i => rfl
    have hgd0 : (v :: t).getD 0 0 = v := rfl
    have hexp : ∀ i : Nat, t.length + 1 - 1 - (i + 1) = t.length - 1 - i := by omega
    have hexp0 : t.length + 1 - 1 - 0 = t.length := by omega
    simp only [hgd, hgd0, hexp, hexp0]
    ring

/-- C3: for an N×N grid of samples, `compute_average_hash` is the N²-bit
integer whose bit for the i-th sample (row-major, MSB first) is 1 exactly
when that sample is ≥ the arithmetic mean of all samples. -/
theorem compute_average_hash_msb_first (N : Nat) (pixels : List Nat)
    (hlen : pixels.length = N * N) (hpos : 0 < pixels.length) :
    compute_average_hash pixels
      = ∑ i ∈ Finset.range pixels.length,
          if ((pixels.sum : ℚ) / (pixels.length : ℚ) ≤ (pixels.getD i 0 : ℚ))
          then 2 ^ (pixels.length - 1 - i) else 0 := by
  unfold compute_average_hash
  rw [foldl_bits (fun value => if pixels.sum ≤ value * pixels.length then 1 else 0) pixels 0]
  rw [Nat.zero_mul, Nat.zero_add]
  apply Finset.sum_congr rfl
  intro i _
  have hq : ((pixels.sum : ℚ) / (pixels.length : ℚ) ≤ (pixels.getD i 0 : ℚ))
      ↔ pixels.sum ≤ pixels.getD i 0 * pixels.length := by
    rw [div_le_iff (by exact_mod_cast hpos)]
    constructor
    · intro h
      exact_mod_cast h
    · intro h
      exact_mod_cast h
  by_cases hc : pixels.sum ≤ pixels.getD i 0 * pixels.length
  · rw [if_pos hc, if_pos (hq.2 hc), one_mul]
  · rw [if_neg hc, if_neg (fun h => hc (hq.1 h)), zero_mul]

/-- C3, witness at a concrete 2×2 grid. -/
theorem compute_average_hash_msb_first_witness :
    compute_average_hash [10, 20, 30, 40]
      = ∑ i ∈ Finset.range ([10, 20, 30, 40] : List Nat).length,
          if ((([10, 20, 30, 40] : List Nat).sum : ℚ)
                / ((([10, 20, 30, 40] : List Nat).length : Nat) : ℚ)
              ≤ (([10, 20, 30, 40] : List Nat).getD i 0 : ℚ))
          then 2 ^ (([10, 20, 30, 40] : List Nat).length - 1 - i) else 0 :=
  compute_average_hash_msb_first 2 [10, 20, 30, 40] (by decide) (by decide)

/-! ### C5 -/

/-- The length of a `filterMap` counts the inputs the function keeps. -/
theorem length_filterMap_eq_countP {α β : Type} (f : α → Option β) :
    ∀ l : List α, (l.filterMap f).length = l.countP fun a => (f a).isSome := by
  intro l
  induction l with
  | nil => rfl
  | cons x xs ih =>
    cases hx : f x with
    | none => simp [List.filterMap_cons, List.countP_cons, hx, ih]
    | some b => simp [List.filterMap_cons, List.countP_cons, hx, ih]

/-- An entry contributes a record exactly when it is a file with a
recognized suffix whose decode succeeded. -/
theorem gather_entry_isSome (extensions : List Nat) (entry : DirEntry) :
    (gather_entry extensions entry).isSome
      = (entry.is_file && extensions.contains entry.suffix && entry.decoded.isSome) := by
  unfold gather_entry
  split
  · next hcond =>
    rw [hcond, Bool.true_and]
    cases hd : entry.decoded with
    | none => simp [hd]
    | some d =>
      obtain ⟨w, h, samples⟩ := d
      simp [hd]
  · next hcond =>
    simp only [Bool.not_eq_true] at hcond
    rw [hcond, Bool.false_and]
    rfl

/-- The five-file scenario: paths 1–5, all files with the recognized
suffix 0; the entry at path 3 fails to decode. -/
def entryOk1 : DirEntry := ⟨1, true, 0, some (1, 1, [0])⟩

/-- Second healthy entry of the scenario. -/
def entryOk2 : DirEntry := ⟨2, true, 0, some (1, 1, [5])⟩

/-- The corrupt entry of the scenario: decoding raises `OSError`. -/
def entryBad3 : DirEntry := ⟨3, true, 0, none⟩

/-- Third healthy entry of the scenario. -/
def entryOk4 : DirEntry := ⟨4, true, 0, some (2, 1, [7, 9])⟩

/-- Fourth healthy entry of the scenario. -/
def entryOk5 : DirEntry := ⟨5, true, 0, some (1, 2, [9, 7])⟩

/-- C5, counterexample: on a chapter of 5 files of which 1 is corrupt the
loader does yield exactly 4 records and does continue past the failure,
but it records no `DecodeFailure` signal at all — its entire output is
identical to the output on the chapter with the corrupt file absent, so
no signal carrying the path and cause is recorded anywhere. -/
theorem gather_panels_silent_skip :
    gather_panels [entryOk1, entryOk2, entryBad3, entryOk4, entryOk5] [0]
        = gather_panels [entryOk1, entryOk2, entryOk4, entryOk5] [0]
      ∧ (gather_panels [entryOk1, entryOk2, entryBad3, entryOk4, entryOk5] [0]).length = 4 := by
  decide

/-- C5, amended: when a file fails to decode, `gather_panels` silently
skips it (recording nothing) and continues with the remaining paths: the
number of records equals the number of file entries with a recognized
suffix whose decode succeeded, and every such entry still yields its
record — no failure aborts the remaining scan. -/
theorem gather_panels_skips_failures (entries : List DirEntry) (extensions : List Nat) :
    (gather_panels entries extensions).length
        = entries.countP (fun e => e.is_file && extensions.contains e.suffix && e.decoded.isSome)
      ∧ ∀ e ∈ entries, e.is_file = true → extensions.contains e.suffix = true →
          ∀ w h samples, e.decoded = some (w, h, samples) →
            (⟨e.path, w, h, compute_average_hash samples⟩ : PanelInfo)
              ∈ gather_panels entries extensions := by
  constructor
  · unfold gather_panels
    rw [length_filterMap_eq_countP]
    rw [(List.perm_insertionSort byPath entries).countP_eq]
    apply List.countP_congr
    intro e _
    rw [gather_entry_isSome]
  · intro e he hf hs w h samples hd
    have hs' : e.suffix ∈ extensions := by simpa using hs
    apply List.mem_filterMap.2
    refine ⟨e, (List.perm_insertionSort byPath entries).mem_iff.2 he, ?_⟩
    simp [gather_entry, hf, hs', hd]

/-- C5 amended, witness on the five-file scenario. -/
theorem gather_panels_skips_failures_witness :
    (gather_panels [entryOk1, entryOk2, entryBad3, entryOk4, entryOk5] [0]).length
        = ([entryOk1, entryOk2, entryBad3, entryOk4, entryOk5].countP
            (fun e => e.is_file && [0].contains e.suffix && e.decoded.isSome))
      ∧ (⟨entryOk1.path, 1, 1, compute_average_hash [0]⟩ : PanelInfo)
          ∈ gather_panels [entryOk1, entryOk2, entryBad3, entryOk4, entryOk5] [0] :=
  ⟨(gather_panels_skips_failures [entryOk1, entryOk2, entryBad3, entryOk4, entryOk5] [0]).1,
    (gather_panels_skips_failures [entryOk1, entryOk2, entryBad3, entryOk4, entryOk5] [0]).2
      entryOk1 (by decide) (by decide) (by decide) 1 1 [0] (by decide)⟩

/-! ### C8 -/

/-- C8: every pair reported by `scan_repository` consists of two panels
gathered from one and the same chapter directory; no reported pair ever
relates panels of two different chapters. -/
theorem scan_repository_pairs_within_chapter (chapters : List Chapter) (extensions : List Nat)
    (threshold : Nat) (p : SimilarPair) (h : p ∈ scan_repository chapters extensions threshold) :
    ∃ chapter, chapter ∈ chapters ∧
      p.left ∈ gather_panels chapter.entries extensions ∧
      p.right ∈ gather_panels chapter.entries extensions := by
  unfold scan_repository at h
  rcases List.mem_flatMap.1 h with ⟨chapter, hch, hp⟩
  refine ⟨chapter, (List.perm_insertionSort byName chapters).mem_iff.1 hch, ?_⟩
  by_cases hempty : (gather_panels chapter.entries extensions).isEmpty
  · rw [if_pos hempty] at hp
    exact absurd hp (List.not_mem_nil p)
  · rw [if_neg hempty] at hp
    exact find_similar_pairs_mem hp

/-- C8, witness on a one-chapter repository. -/
theorem scan_repository_pairs_within_chapter_witness :
    ∃ chapter, chapter ∈ [Chapter.mk 7 [entryOk1, entryOk2]] ∧
      (SimilarPair.mk ⟨1, 1, 1, 1⟩ ⟨2, 1, 1, 1⟩ 0).left
          ∈ gather_panels chapter.entries [0] ∧
      (SimilarPair.mk ⟨1, 1, 1, 1⟩ ⟨2, 1, 1, 1⟩ 0).right
          ∈ gather_panels chapter.entries [0] :=
  scan_repository_pairs_within_chapter [Chapter.mk 7 [entryOk1, entryOk2]] [0] 4
    ⟨⟨1, 1, 1, 1⟩, ⟨2, 1, 1, 1⟩, 0⟩ (by decide)

/-! ### C7 -/

/-- Completeness of the row search: a genuine aligned crop is found. -/
theorem containment_search_of_crop {A B : ImageRec} {x0 y0 : Nat}
    (hcrop : is_crop A B x0 y0) (hh : 0 < B.height) :
    containment_search A B = true := by
  obtain ⟨hw, hhgt, hbytes⟩ := hcrop
  apply List.any_eq_true.2
  refine ⟨y0, List.mem_range.2 (by omega), ?_⟩
  apply List.any_eq_true.2
  refine ⟨3 * x0, List.mem_range.2 ?_, ?_⟩
  · simp only [ImageRec.stride]
    omega
  · rw [Bool.and_eq_true, Bool.and_eq_true]
    refine ⟨⟨?_, ?_⟩, ?_⟩
    · apply List.all_eq_true.2
      intro c hc
      exact beq_iff_eq.2 (hbytes 0 hh c (List.mem_range.1 hc)).symm
    · simp [Nat.mul_mod_right]
    · apply List.all_eq_true.2
      intro r hr
      apply List.all_eq_true.2
      intro c hc
      exact beq_iff_eq.2 (hbytes r (List.mem_range.1 hr) c (List.mem_range.1 hc)).symm

/-- Soundness of the row search: a hit is an aligned sub-rectangle match
at an in-range pixel offset. -/
theorem containment_search_aligned {A B : ImageRec}
    (hs : containment_search A B = true) :
    ∃ x0 y0, x0 < A.width - B.width + 1 ∧ y0 < A.height - B.height + 1 ∧
      aligned_match A B x0 y0 := by
  rcases List.any_eq_true.1 hs with ⟨y0, hy0, hinner⟩
  rcases List.any_eq_true.1 hinner with ⟨p, hp, hcond⟩
  rw [Bool.and_eq_true, Bool.and_eq_true] at hcond
  obtain ⟨⟨-, hmod⟩, hall⟩ := hcond
  have hmod' : p % 3 = 0 := by simpa using hmod
  have hp3 : 3 * (p / 3) = p := Nat.mul_div_cancel' (Nat.dvd_of_mod_eq_zero hmod')
  have hpr : p < A.stride - B.stride + 1 := List.mem_range.1 hp
  refine ⟨p / 3, y0, ?_, ?_, ?_⟩
  · simp only [ImageRec.stride] at hpr
    omega
  · exact List.mem_range.1 hy0
  · intro r hr c hc
    have hrow := List.all_eq_true.1 hall r (List.mem_range.2 hr)
    have hbyte := List.all_eq_true.1 hrow c (List.mem_range.2 hc)
    rw [hp3]
    exact beq_iff_eq.1 hbyte

/-- C7 (the ContainmentDetector is modelled from the spec, src/ has no
implementation): when `B`'s buffer equals an axis-aligned,
integer-pixel-offset crop of `A`'s buffer and `B` is strictly smaller in
area, the detector reports the directional match `(B, A)`; and when `A`
and `B` share no common aligned sub-rectangle of `B`'s size, it reports
no containment for the pair. -/
theorem containment_detector_correct (A B : ImageRec) :
    (∀ x0 y0, is_crop A B x0 y0 → 0 < B.height →
        B.width * B.height < A.width * A.height →
        containment_detector A B = some (B.identity, A.identity))
      ∧ ((∀ x0 < A.width - B.width + 1, ∀ y0 < A.height - B.height + 1,
            ¬ aligned_match A B x0 y0) →
          containment_detector A B = none) := by
  constructor
  · intro x0 y0 hcrop hh harea
    obtain ⟨hw, hhgt, hbytes⟩ := hcrop
    have hW : B.width ≤ A.width := by omega
    have hH : B.height ≤ A.height := by omega
    have hne : ¬(B.width = A.width ∧ B.height = A.height) := by
      rintro ⟨h1, h2⟩
      rw [h1, h2] at harea
      exact lt_irrefl _ harea
    unfold containment_detector
    rw [if_pos ⟨hW, hH, hne⟩, containment_search_of_crop ⟨hw, hhgt, hbytes⟩ hh]
    rfl
  · intro hnone
    unfold containment_detector
    split
    · cases hsearch : containment_search A B with
      | false => rfl
      | true =>
        exfalso
        rcases containment_search_aligned hsearch with ⟨x0, y0, hx0, hy0, halign⟩
        exact hnone x0 hx0 y0 hy0 halign
    · rfl

/-- The 2×2 container of the C7 witness. -/
def imgA : ImageRec := ⟨10, 2, 2, [0, 1, 2, 3, 4, 5, 6, 7, 8, 9, 10, 11]⟩

/-- The 1×1 candidate of the C7 witness: the bottom-right pixel of `imgA`. -/
def imgB : ImageRec := ⟨20, 1, 1, [9, 10, 11]⟩

/-- A 2×2 container sharing no pixel with `imgD`. -/
def imgC : ImageRec := ⟨30, 2, 2, [0, 0, 0, 0, 0, 0, 0, 0, 0, 0, 0, 0]⟩

/-- A 1×1 candidate absent from `imgC`. -/
def imgD : ImageRec := ⟨40, 1, 1, [9, 9, 9]⟩

/-- C7, witness: the crop `imgB` of `imgA` is reported as `(B, A)`, and
the unrelated pair `(imgC, imgD)` is reported as no containment. -/
theorem containment_detector_correct_witness :
    containment_detector imgA imgB = some (imgB.identity, imgA.identity)
      ∧ containment_detector imgC imgD = none :=
  ⟨(containment_detector_correct imgA imgB).1 1 1 (by decide) (by decide) (by decide),
    (containment_detector_correct imgC imgD).2 (by decide)⟩

/-! ### C10 -/

/-- A value outside a list is not `contains`-detected. -/
theorem not_contains_of_not_mem {L : List Nat} {x : Nat} (h : x ∉ L) :
    (!L.contains x) = true := by
  cases hc : L.contains x with
  | false => rfl
  | true => exact absurd (List.elem_iff.1 hc) h

/-- `contains` on a cons ignores a head that differs from the key. -/
theorem contains_cons_ne (L : List Nat) {a x : Nat} (h : ¬ x = a) :
    (a :: L).contains x = L.contains x := by
  rw [List.contains_cons]
  simp [h]

/-- On an ascending-sorted nonempty list, `find_missing` returns, in
ascending order, exactly the integers strictly between the head (the
minimum) and the last element (the maximum) that do not occur in the
list. -/
theorem find_missing_sorted :
    ∀ (l : List Nat) (a : Nat), List.Sorted (· ≤ ·) (a :: l) →
      find_missing (a :: l)
        = (List.range' (a + 1) ((a :: l).getLast (List.cons_ne_nil a l) - a - 1)).filter
            (fun x => !((a :: l).contains x)) := by
  intro l
  induction l with
  | nil =>
    intro a _
    have h0 : a - a - 1 = 0 := by omega
    rw [show (([a] : List Nat).getLast (List.cons_ne_nil a [])) = a from rfl, h0]
    rfl
  | cons b t ih =>
    intro a hs
    have hab : a ≤ b := List.rel_of_sorted_cons hs b (List.mem_cons_self b t)
    have hs' : List.Sorted (· ≤ ·) (b :: t) := hs.of_cons
    have htail : ∀ x ∈ t, b ≤ x := List.rel_of_sorted_cons hs'
    have hlast : (a :: b :: t).getLast (List.cons_ne_nil a (b :: t))
        = (b :: t).getLast (List.cons_ne_nil b t) := List.getLast_cons (List.cons_ne_nil b t)
    have hstep : find_missing (a :: b :: t)
        = (if b - a > 1 then List.range' (a + 1) (b - a - 1) else [])
            ++ find_missing (b :: t) := rfl
    rw [hstep, ih b hs', hlast]
    set M := (b :: t).getLast (List.cons_ne_nil b t) with hM
    have hbM : b ≤ M := by
      rcases List.mem_cons.1 (List.getLast_mem (List.cons_ne_nil b t)) with h | h
      · omega
      · exact htail M h
    rcases Nat.lt_or_ge a b with hlt | hge
    · -- a < b: split the interval (a, M) at b
      have hsplit : List.range' (a + 1) (M - a - 1)
          = List.range' (a + 1) (b - a - 1) ++ List.range' b (M - b) := by
        have happ := List.range'_append (a + 1) (b - a - 1) (M - b) 1
        rw [show (a + 1) + 1 * (b - a - 1) = b from by omega,
          show (M - b) + (b - a - 1) = M - a - 1 from by omega] at happ
        exact happ.symm
      rw [hsplit, List.filter_append]
      congr 1
      · -- the gap block (a, b)
        rcases Nat.lt_or_ge (b - a) 2 with hsmall | hbig
        · rw [if_neg (by omega), show b - a - 1 = 0 from by omega]
          rfl
        · rw [if_pos (by omega)]
          refine (List.filter_eq_self.2 ?_).symm
          intro x hx
          rcases List.mem_range'_1.1 hx with ⟨hx1, hx2⟩
          apply not_contains_of_not_mem
          intro hmem
          rcases List.mem_cons.1 hmem with rfl | hmem2
          · omega
          rcases List.mem_cons.1 hmem2 with rfl | hmem3
          · omega
          · have := htail x hmem3
            omega
      · -- the block [b, M), whose head b is present in the list
        rcases Nat.lt_or_ge b M with hltM | hgeM
        · rw [show M - b = (M - b - 1) + 1 from by omega, List.range'_succ]
          have hbfalse : ¬ ((fun x => !((a :: b :: t).contains x)) b = true) := by
            have : (a :: b :: t).contains b = true :=
              List.elem_iff.2 (List.mem_cons_of_mem a (List.mem_cons_self b t))
            simp [this]
          rw [List.filter_cons, if_neg hbfalse]
          refine List.filter_congr ?_
          intro x hx
          rcases List.mem_range'_1.1 hx with ⟨hx1, -⟩
          rw [contains_cons_ne (b :: t) (show ¬ x = a from by omega)]
        · rw [show M - b = 0 from by omega]
          rfl
    · -- a = b: the head is duplicated, no gap block
      have heq : a = b := le_antisymm hab hge
      subst heq
      rw [if_neg (by omega), List.nil_append]
      refine List.filter_congr ?_
      intro x hx
      rcases List.mem_range'_1.1 hx with ⟨hx1, -⟩
      rw [contains_cons_ne (a :: t) (show ¬ x = a from by omega)]

/-- C10: for every ascending-sorted list of panel numbers, `find_missing`
returns, in ascending order, exactly the integers strictly between the
minimum (the head) and the maximum (the last element) that do not occur
in the list; every list with fewer than two elements yields `[]`. -/
theorem find_missing_between_min_max :
    (∀ l : List Nat, l.length < 2 → find_missing l = [])
      ∧ (∀ (a : Nat) (l : List Nat), List.Sorted (· ≤ ·) (a :: l) →
          find_missing (a :: l)
            = (List.range' (a + 1) ((a :: l).getLast (List.cons_ne_nil a l) - a - 1)).filter
                (fun x => !((a :: l).contains x))) := by
  constructor
  · intro l h
    match l with
    | [] => rfl
    | [_] => rfl
    | x :: y :: rest => simp [List.length_cons] at h; omega
  · intro a l hs
    exact find_missing_sorted l a hs

/-- C10, witness: the empty list, and the sorted list `[1, 3, 7]` whose
gaps are `[2, 4, 5, 6]`. -/
theorem find_missing_between_min_max_witness :
    find_missing ([] : List Nat) = []
      ∧ find_missing [1, 3, 7]
          = (List.range' 2 (([1, 3, 7] : List Nat).getLast (List.cons_ne_nil 1 [3, 7]) - 1 - 1)).filter
              (fun x => !(([1, 3, 7] : List Nat).contains x)) :=
  ⟨find_missing_between_min_max.1 [] (by decide),
    find_missing_between_min_max.2 1 [3, 7] (by decide)⟩

end WaguriRead
